import Mathlib

/-!
Shallow embedding of `src/include/smarter.hpp` (namespace `smarter`), the
intrusive dual-counter reference-counting library, together with proofs of
the specification claims.

Counts in the source are `std::atomic<unsigned int>`; we model them as `Nat`
values reduced modulo `2^32` wherever the machine arithmetic can wrap
(`fetch_add` / `fetch_sub`).  A failed `assert(...)` is modelled as `none`
(respectively `Except.error`): the operation aborts instead of returning.
The claims are about single-threaded executions (each atomic read-modify-write
is one step), so the atomics are modelled as plain state updates.
-/

namespace Smarter

/-- Modulus of the `unsigned int` count (32-bit on the platforms the library
targets). -/
def U32 : Nat := 2 ^ 32

/-! ## `counter::increment` (smarter.hpp lines 53-56)

```cpp
void increment() {
    auto count = _count.fetch_add(1, std::memory_order_acq_rel);
    assert(count);
}
```
`fetch_add` returns the previous value; the assertion fires when that previous
value is zero.  `none` models the aborted execution. -/
def increment (c : Nat) : Option Nat :=
  let old := c
  let stored := (c + 1) % U32
  if old = 0 then none else some stored

/-! ## `counter::increment_if_nonzero` (smarter.hpp lines 58-66)

```cpp
bool increment_if_nonzero() {
    auto count = _count.load(std::memory_order_relaxed);
    do {
        if(!count)
            return false;
    } while(!_count.compare_exchange_strong(count, count + 1, ...));
    return true;
}
```
In a single-threaded step the CAS succeeds on the first try, so the loop is:
return `false` leaving the count alone when it is zero, otherwise store
`count + 1` and return `true`.  There is no assertion on this path: the
function is total. -/
def increment_if_nonzero (c : Nat) : Bool × Nat :=
  if c = 0 then (false, c) else (true, (c + 1) % U32)

/-! ## `counter::decrement` and the holder chain (smarter.hpp lines 68-83)

```cpp
void decrement() {
    auto count = _count.fetch_sub(1, std::memory_order_acq_rel);
    if(count > 1)
        return;
    assert(count == 1);
    auto h = _holder;      // loaded before dispose()
    dispose();
    if(h)
        h->decrement();
}
```
A counter owns a `_holder` pointer to another counter (or null), forming a
chain.  We model the chain of counts as a nonempty list: the argument `c` is
this counter's count and `rest` is the chain hanging off its holder (`[]`
means `_holder == nullptr`).  `fetch_sub` on `unsigned int` wraps modulo
`2^32` and returns the previous value.

The observable actions are recorded in a trace, tagged with the depth of the
counter in the chain that performed them, so that order and multiplicity of
`dispose()` calls are part of the result. -/
inductive Act where
  | readHolder (depth : Nat) (present : Bool)
  | dispose (depth : Nat)
deriving DecidableEq, Repr

/-- One `decrement()` call on the counter at depth `d` whose count is `c` and
whose holder chain carries the counts `rest`.  Returns `none` when an
assertion fires (at this counter or during the cascade), otherwise the updated
chain together with the action trace. -/
def decrementChain (d : Nat) (c : Nat) (rest : List Nat) :
    Option (List Nat × List Act) :=
  let old := c
  let stored := (c + (U32 - 1)) % U32
  if old > 1 then
    some (stored :: rest, [])
  else if old ≠ 1 then
    none
  else
    match rest with
    | [] => some (stored :: [], [Act.readHolder d false, Act.dispose d])
    | h :: rest2 =>
      match decrementChain (d + 1) h rest2 with
      | none => none
      | some (chain2, tr) =>
        some (stored :: chain2, Act.readHolder d true :: Act.dispose d :: tr)

/-! ## Remaining-count helper

`(c + (U32 - 1)) % U32` is the stored value of `fetch_sub(1)`; for an in-range
nonzero count it equals `c - 1`. -/
theorem fetch_sub_stored (c : Nat) (h1 : 1 ≤ c) (h2 : c < U32) :
    (c + (U32 - 1)) % U32 = c - 1 := by
  have hU : U32 = 2 ^ 32 := rfl
  have : c + (U32 - 1) = (c - 1) + U32 := by omega
  rw [this, Nat.add_mod_right]
  exact Nat.mod_eq_of_lt (by omega)

/-- C1: one decrement subtracts 1; a nonzero result does nothing else; a zero
result reads the holder, disposes exactly once, then decrements the holder. -/
theorem decrement_spec (c : Nat) (rest : List Nat)
    (h1 : 1 ≤ c) (h2 : c < U32) :
    (1 < c → decrementChain 0 c rest = some ((c - 1) :: rest, [])) ∧
    (c = 1 → rest = [] →
      decrementChain 0 c rest =
        some ([0], [Act.readHolder 0 false, Act.dispose 0])) ∧
    (c = 1 → ∀ h rest2, rest = h :: rest2 →
      decrementChain 0 c rest =
        Option.map
          (fun pr => (0 :: pr.1, Act.readHolder 0 true :: Act.dispose 0 :: pr.2))
          (decrementChain 1 h rest2)) := by
  refine ⟨?_, ?_, ?_⟩
  · intro hgt
    rw [decrementChain.eq_def]
    simp only [fetch_sub_stored c h1 h2]
    simp [hgt]
  · intro hc hrest
    subst hc; subst hrest
    rw [decrementChain.eq_def]
    norm_num [U32]
  · intro hc h rest2 hrest
    subst hc; subst hrest
    rw [decrementChain.eq_def]
    norm_num [U32]
    cases decrementChain 1 h rest2 with
    | none => rfl
    | some pr => rfl

/-- Witness for `decrement_spec` at `c = 2`, chain `[1]`. -/
theorem decrement_spec_witness :
    (1 ≤ 2 ∧ 2 < U32) ∧
    ((1 < 2 → decrementChain 0 2 [1] = some ((2 - 1) :: [1], [])) ∧
     (2 = 1 → ([1] : List Nat) = [] →
       decrementChain 0 2 [1] =
         some ([0], [Act.readHolder 0 false, Act.dispose 0])) ∧
     (2 = 1 → ∀ h rest2, ([1] : List Nat) = h :: rest2 →
       decrementChain 0 2 [1] =
         Option.map
           (fun pr =>
             (0 :: pr.1, Act.readHolder 0 true :: Act.dispose 0 :: pr.2))
           (decrementChain 1 h rest2))) :=
  ⟨⟨by norm_num, by norm_num [U32]⟩,
   decrement_spec 2 [1] (by norm_num) (by norm_num [U32])⟩

/-- C10: decrementing a counter whose count is already zero fetches previous
value 0, fails the `assert(count == 1)` (no silent wrap-around is stored), and
under the precondition that the count is nonzero that assertion branch is
unreachable: a `none` result for a nonzero in-range count can only come from
the holder cascade, with this counter's count having been exactly 1. -/
theorem decrement_on_zero (c : Nat) (rest : List Nat) :
    decrementChain 0 0 rest = none ∧
    (1 ≤ c → c < U32 → decrementChain 0 c rest = none →
      c = 1 ∧ ∃ h rest2, rest = h :: rest2 ∧
        decrementChain 1 h rest2 = none) := by
  constructor
  · rw [decrementChain.eq_def]; norm_num
  · intro h1 h2 hnone
    by_cases hgt : 1 < c
    · exfalso
      rw [decrementChain.eq_def] at hnone
      simp [hgt] at hnone
    · have hc : c = 1 := by omega
      subst hc
      refine ⟨rfl, ?_⟩
      cases rest with
      | nil =>
        exfalso
        rw [decrementChain.eq_def] at hnone
        norm_num [U32] at hnone
        exact Option.noConfusion hnone
      | cons h rest2 =>
        refine ⟨h, rest2, rfl, ?_⟩
        rw [decrementChain.eq_def] at hnone
        norm_num [U32] at hnone
        cases hh : decrementChain 1 h rest2 with
        | none => rfl
        | some pr => rw [hh] at hnone; simp at hnone

/-- Witness for `decrement_on_zero` at `c = 1`, chain `[0]` (holder dead). -/
theorem decrement_on_zero_witness :
    (decrementChain 0 0 [0] = none) ∧
    (1 ≤ 1 ∧ 1 < U32 ∧ decrementChain 0 1 [0] = none) ∧
    (1 = 1 ∧ ∃ h rest2, ([0] : List Nat) = h :: rest2 ∧
      decrementChain 1 h rest2 = none) := by
  have hz : decrementChain 0 1 [0] = none := by
    rw [decrementChain.eq_def]
    norm_num [U32]
    rw [decrementChain.eq_def]
    norm_num
  refine ⟨(decrement_on_zero 0 [0]).1, ⟨by norm_num, by norm_num [U32], hz⟩, ?_⟩
  exact (decrement_on_zero 1 [0]).2 (by norm_num) (by norm_num [U32]) hz

/-- C4: incrementing a dead counter aborts via the assertion; incrementing a
live counter stores count + 1 and succeeds. -/
theorem increment_spec (c : Nat) :
    increment 0 = none ∧
    (c ≠ 0 → increment c = some ((c + 1) % U32)) ∧
    (c ≠ 0 → c + 1 < U32 → increment c = some (c + 1)) := by
  refine ⟨rfl, ?_, ?_⟩
  · intro hc
    simp [increment, hc]
  · intro hc hlt
    simp [increment, hc, Nat.mod_eq_of_lt hlt]

/-- Witness for `increment_spec` at `c = 5`. -/
theorem increment_spec_witness :
    increment 0 = none ∧
    (5 ≠ 0 ∧ increment 5 = some ((5 + 1) % U32)) ∧
    (5 + 1 < U32 ∧ increment 5 = some (5 + 1)) :=
  ⟨(increment_spec 5).1,
   ⟨by norm_num, (increment_spec 5).2.1 (by norm_num)⟩,
   ⟨by norm_num [U32],
    (increment_spec 5).2.2 (by norm_num) (by norm_num [U32])⟩⟩

/-! ## Handle representations

A `shared_ptr<T, H>` is the field pair `{T *_object; counter *_ctr;}`
(smarter.hpp lines 268-270), a `weak_ptr<T, H>` the same pair
(lines 338-340).  Pointers are modelled as `Nat` addresses with `0` for
`nullptr`.  The tag parameter `H` is phantom and carries no state. -/
structure SharedRep where
  _object : Nat
  _ctr : Nat
deriving DecidableEq, Repr

/-- The default / `nullptr_t` constructed handle (lines 216-220). -/
def nullShared : SharedRep := ⟨0, 0⟩

structure WeakRep where
  _object : Nat
  _ctr : Nat
deriving DecidableEq, Repr

/-! ## `weak_ptr::lock` (smarter.hpp lines 328-336)

```cpp
shared_ptr<T, H> lock() const {
    if(!_ctr)
        return shared_ptr<T, H>{};
    if(!_ctr->increment_if_nonzero())
        return shared_ptr<T, H>{};
    return shared_ptr<T, H>{adopt_rc, _object, _ctr};
}
```
`count` is the current count of the object-facet counter `*_ctr`.  The
function is total (it contains no assertion and guards its single pointer
dereference): its only failure mode is the null result. -/
def lock (w : WeakRep) (count : Nat) : SharedRep × Nat :=
  if w._ctr = 0 then (nullShared, count)
  else
    match increment_if_nonzero count with
    | (false, c2) => (nullShared, c2)
    | (true, c2) => (⟨w._object, w._ctr⟩, c2)

/-- C5: `lock` on a null weak handle returns a null strong handle without
touching any count; on a live weak handle it returns null when the observed
count is already zero, and otherwise adopts the recorded pair after the single
CAS increment.  Being a total function into plain pairs, `lock` never
aborts. -/
theorem lock_spec (w : WeakRep) (c : Nat) :
    (w._ctr = 0 → lock w c = (nullShared, c)) ∧
    (w._ctr ≠ 0 → c = 0 → lock w c = (nullShared, c)) ∧
    (w._ctr ≠ 0 → c ≠ 0 → lock w c = (⟨w._object, w._ctr⟩, (c + 1) % U32)) := by
  refine ⟨?_, ?_, ?_⟩
  · intro h0
    simp [lock, h0]
  · intro hne hc
    simp [lock, hne, increment_if_nonzero, hc]
  · intro hne hc
    simp [lock, hne, increment_if_nonzero, hc]

/-- Witness for `lock_spec` on the weak handle `⟨7, 3⟩` and count 2. -/
theorem lock_spec_witness :
    ((WeakRep.mk 7 3)._ctr = 0 → lock ⟨7, 3⟩ 2 = (nullShared, 2)) ∧
    ((WeakRep.mk 7 3)._ctr ≠ 0 ∧
      lock ⟨7, 3⟩ 2 = (⟨7, 3⟩, (2 + 1) % U32)) ∧
    ((WeakRep.mk 7 0)._ctr = 0 ∧ lock ⟨7, 0⟩ 2 = (nullShared, 2)) ∧
    (2 ≠ 0 ∧ lock ⟨3, 9⟩ 0 = (nullShared, 0)) :=
  ⟨(lock_spec ⟨7, 3⟩ 2).1,
   ⟨by norm_num, (lock_spec ⟨7, 3⟩ 2).2.2 (by norm_num) (by norm_num)⟩,
   ⟨rfl, (lock_spec ⟨7, 0⟩ 2).1 rfl⟩,
   ⟨by norm_num, (lock_spec ⟨3, 9⟩ 0).2.1 (by norm_num) rfl⟩⟩

/-! ## Counter traffic of the strong-handle operations

For the claims about `release`, adoption and the two casts we record every
counter operation a handle operation performs as an event list; an execution
with the empty trace performs no increment and no decrement. -/
inductive CtrEvent where
  | inc (ctr : Nat)
  | dec (ctr : Nat)
deriving DecidableEq, Repr

/-- Effect of one counter event on the per-address raw counts: `inc` is
`fetch_add(1)`, `dec` is `fetch_sub(1)`, both modulo `2^32`. -/
def applyEvent (m : Nat → Nat) : CtrEvent → Nat → Nat
  | CtrEvent.inc c => fun x => if x = c then (m x + 1) % U32 else m x
  | CtrEvent.dec c => fun x => if x = c then (m x + (U32 - 1)) % U32 else m x

def applyEvents (m : Nat → Nat) : List CtrEvent → Nat → Nat
  | [] => m
  | e :: es => applyEvents (applyEvent m e) es

/-- Copy constructor (lines 225-229): duplicate both fields, then
`if(_ctr) _ctr->increment();`. -/
def sharedCopy (p : SharedRep) : SharedRep × List CtrEvent :=
  (⟨p._object, p._ctr⟩, if p._ctr = 0 then [] else [CtrEvent.inc p._ctr])

/-- Destructor (lines 241-244): `if(_ctr) _ctr->decrement();`. -/
def sharedDrop (p : SharedRep) : List CtrEvent :=
  if p._ctr = 0 then [] else [CtrEvent.dec p._ctr]

/-- `release()` (lines 255-258): return the pair and `std::exchange` both
members to null; the body contains no counter operation. -/
def release (p : SharedRep) : (Nat × Nat) × SharedRep × List CtrEvent :=
  ((p._object, p._ctr), nullShared, [])

/-- Adopting constructor (lines 222-223): store the pair untouched; no
counter operation. -/
def adoptShared (object ctr : Nat) : SharedRep × List CtrEvent :=
  (⟨object, ctr⟩, [])

/-- `release()` on a handle immediately followed by re-adoption of the
returned pair into a fresh handle; result handle and combined trace. -/
def releaseAdoptRoundTrip (p : SharedRep) : SharedRep × List CtrEvent :=
  let r := release p
  let a := adoptShared r.1.1 r.1.2
  (a.1, r.2.2 ++ a.2)

/-- C7: for a non-null handle, `release` hands out exactly the handle's pair
and nulls the handle without any counter event, and re-adopting that pair
reproduces the original handle with an empty combined trace, so every raw
count is unchanged across the round trip. -/
theorem release_adopt_roundtrip (p : SharedRep) (hp : p._ctr ≠ 0) :
    (release p).1 = (p._object, p._ctr) ∧
    (release p).2.1 = nullShared ∧
    (release p).2.2 = [] ∧
    releaseAdoptRoundTrip p = (p, []) ∧
    (∀ m : Nat → Nat, applyEvents m (releaseAdoptRoundTrip p).2 = m) := by
  refine ⟨rfl, rfl, rfl, ?_, ?_⟩
  · simp [releaseAdoptRoundTrip, release, adoptShared]
  · intro m
    simp [releaseAdoptRoundTrip, release, adoptShared, applyEvents]

/-- Witness for `release_adopt_roundtrip` on the handle `⟨4, 9⟩`. -/
theorem release_adopt_roundtrip_witness :
    (SharedRep.mk 4 9)._ctr ≠ 0 ∧
    ((release ⟨4, 9⟩).1 = (4, 9) ∧
     (release ⟨4, 9⟩).2.1 = nullShared ∧
     (release ⟨4, 9⟩).2.2 = [] ∧
     releaseAdoptRoundTrip ⟨4, 9⟩ = (⟨4, 9⟩, []) ∧
     (∀ m : Nat → Nat, applyEvents m (releaseAdoptRoundTrip ⟨4, 9⟩).2 = m)) :=
  ⟨by norm_num, release_adopt_roundtrip ⟨4, 9⟩ (by norm_num)⟩

/-- `swap` on `shared_ptr` (lines 203-206): exchange both member pairs; no
counter operation. -/
def swapShared (x y : SharedRep) : SharedRep × SharedRep := (y, x)

/-- `static_pointer_cast` (lines 273-277): `other.release()`, then the
adopting constructor on the released pair; the by-value source, now null, is
destroyed on return.  Result: (new handle, source after release), trace. -/
def static_pointer_cast (p : SharedRep) :
    (SharedRep × SharedRep) × List CtrEvent :=
  let r := release p
  let a := adoptShared r.1.1 r.1.2
  ((a.1, r.2.1), r.2.2 ++ a.2 ++ sharedDrop r.2.1)

/-- `handle_cast` (lines 208-214): default-construct `p`, swap it with the
by-value source, return `p`; the source, now holding the nulls, is destroyed
on return.  Result: (new handle, source after swap), trace. -/
def handle_cast (other : SharedRep) :
    (SharedRep × SharedRep) × List CtrEvent :=
  let p0 := nullShared
  let sw := swapShared p0 other
  ((sw.1, sw.2), sharedDrop sw.2)

/-- C8: both casts hand the claim over unchanged — the result carries the
source's pair, the source is left null, the trace is empty, and every raw
count is the same before and after. -/
theorem cast_transfers_claim (p : SharedRep) :
    static_pointer_cast p = ((⟨p._object, p._ctr⟩, nullShared), []) ∧
    handle_cast p = ((⟨p._object, p._ctr⟩, nullShared), []) ∧
    (∀ m : Nat → Nat, applyEvents m (static_pointer_cast p).2 = m) ∧
    (∀ m : Nat → Nat, applyEvents m (handle_cast p).2 = m) := by
  refine ⟨?_, ?_, ?_, ?_⟩
  · simp [static_pointer_cast, release, adoptShared, sharedDrop, nullShared]
  · simp [handle_cast, swapShared, sharedDrop, nullShared]
  · intro m
    simp [static_pointer_cast, release, adoptShared, sharedDrop, nullShared,
      applyEvents]
  · intro m
    simp [handle_cast, swapShared, sharedDrop, nullShared, applyEvents]

/-! ## Constructing a weak handle from a strong handle
(smarter.hpp lines 290-301; the same-type and the converting constructor have
identical bodies)

```cpp
weak_ptr(const shared_ptr<T, H> &ptr)
: _object{ptr.get()}, _ctr{ptr.ctr()} {
    assert(_ctr->holder());
    _ctr->holder()->increment();
}
```
`_ctr->holder()` dereferences `_ctr` with no null check, so a null source
handle is a null-pointer dereference, not a defined null result.  Counters
live in a heap mapping a non-null address to its `{_holder, _count}` record
(`counter` fields, lines 86-87). -/
structure CtrNode where
  _holder : Nat
  _count : Nat
deriving DecidableEq, Repr

inductive Fault where
  | nullDeref
  | assertFailed
deriving DecidableEq, Repr

def heapUpdate (H : Nat → CtrNode) (i : Nat) (n : CtrNode) : Nat → CtrNode :=
  fun x => if x = i then n else H x

def weakFromShared (H : Nat → CtrNode) (p : SharedRep) :
    Except Fault (WeakRep × (Nat → CtrNode)) :=
  if p._ctr = 0 then Except.error Fault.nullDeref
  else
    let hld := (H p._ctr)._holder
    if hld = 0 then Except.error Fault.assertFailed
    else
      let hc := (H hld)._count
      if hc = 0 then Except.error Fault.assertFailed
      else
        Except.ok (⟨p._object, p._ctr⟩,
          heapUpdate H hld ⟨(H hld)._holder, (hc + 1) % U32⟩)

/-- C9: constructing a weak handle from a null strong handle faults (null
dereference of the counter pointer) instead of yielding a null weak handle,
and every execution that does complete started from a non-null handle whose
counter has a non-null holder. -/
theorem weakFromShared_requires_holder (H : Nat → CtrNode) (p : SharedRep) :
    weakFromShared H nullShared = Except.error Fault.nullDeref ∧
    (∀ w H2, weakFromShared H p = Except.ok (w, H2) →
      p._ctr ≠ 0 ∧ (H p._ctr)._holder ≠ 0) := by
  constructor
  · rfl
  · intro w H2 hok
    by_cases h0 : p._ctr = 0
    · rw [weakFromShared, if_pos h0] at hok
      exact absurd hok (by simp)
    · refine ⟨h0, ?_⟩
      intro hh
      rw [weakFromShared, if_neg h0] at hok
      simp only [hh, if_pos rfl] at hok
      exact absurd hok (by simp)

/-- Witness for `weakFromShared_requires_holder` on a heap where every
counter has holder 1 and count 1, applied to the handle `⟨5, 2⟩`. -/
theorem weakFromShared_requires_holder_witness :
    weakFromShared (fun _ => ⟨1, 1⟩) nullShared =
      Except.error Fault.nullDeref ∧
    ((SharedRep.mk 5 2)._ctr ≠ 0 ∧
      ((fun _ => (⟨1, 1⟩ : CtrNode)) (SharedRep.mk 5 2)._ctr)._holder ≠ 0) :=
  ⟨(weakFromShared_requires_holder (fun _ => ⟨1, 1⟩) ⟨5, 2⟩).1,
   (weakFromShared_requires_holder (fun _ => ⟨1, 1⟩) ⟨5, 2⟩).2
     ⟨5, 2⟩ (heapUpdate (fun _ => ⟨1, 1⟩) 1 ⟨1, (1 + 1) % U32⟩) rfl⟩

/-! ## The dual-counter cell: `meta_object` and `make_shared`
(smarter.hpp lines 127-165 and 343-347)

```cpp
meta_object(unsigned int initial_count, Args &&... args)
: crtp_counter<meta_object, dispose_memory>{adopt_rc, nullptr, 1},
  crtp_counter<meta_object, dispose_object>{adopt_rc,
      static_cast<crtp_counter<meta_object, dispose_memory> *>(this),
      initial_count} {
    _bx.construct(std::forward<Args>(args)...);
}

template<typename T, typename... Args>
shared_ptr<T> make_shared(Args &&... args) {
    auto meta = new meta_object<T>{1, std::forward<Args>(args)...};
    return shared_ptr<T>{adopt_rc, meta->get(), meta->object_ctr()};
}
```
The cell holds two counter facets; within a cell a holder pointer is either
null or one of its own facets, modelled by `Option FacetRef`.  The value of
type `α` stands for the `T` object the `box` placement-constructs from the
forwarded arguments. -/
inductive FacetRef where
  | memFacet
  | objFacet
deriving DecidableEq, Repr

structure MetaObjectModel (α : Type) where
  memHolder : Option FacetRef
  memCount : Nat
  objHolder : Option FacetRef
  objCount : Nat
  value : α
deriving DecidableEq, Repr

/-- The `meta_object` constructor: memory facet `{holder = nullptr, count = 1}`,
object facet `{holder = memory facet of this cell, count = initial_count}`,
then the value is placement-constructed. -/
def mkMetaObject (initial_count : Nat) (v : α) : MetaObjectModel α :=
  { memHolder := none
    memCount := 1
    objHolder := some FacetRef.memFacet
    objCount := initial_count
    value := v }

/-- One strong handle over a cell: which facet its `_ctr` points at and
whether its `_object` is the cell's value storage. -/
structure CellHandle where
  ctrFacet : Option FacetRef
  objectIsValue : Bool
deriving DecidableEq, Repr

/-- `make_shared`: a single `new` expression allocates the whole cell
(`allocations = 1`), the `meta_object` constructor runs with
`initial_count = 1`, and the returned handle adopts
`(meta->get(), meta->object_ctr())` without further counter traffic. -/
def make_shared (v : α) : MetaObjectModel α × CellHandle × Nat :=
  (mkMetaObject 1 v, ⟨some FacetRef.objFacet, true⟩, 1)

/-- C6: the factory performs one allocation, constructs the given value in
the cell, sets up the storage facet with count 1 and no holder and the object
facet with the supplied count (1 from `make_shared`) and the cell's own
storage facet as holder, and returns a handle on the value and the object
facet. -/
theorem make_shared_spec (α : Type) (v : α) (n : Nat) :
    (mkMetaObject n v).memCount = 1 ∧
    (mkMetaObject n v).memHolder = none ∧
    (mkMetaObject n v).objCount = n ∧
    (mkMetaObject n v).objHolder = some FacetRef.memFacet ∧
    (mkMetaObject n v).value = v ∧
    make_shared v =
      (mkMetaObject 1 v, ⟨some FacetRef.objFacet, true⟩, 1) :=
  ⟨rfl, rfl, rfl, rfl, rfl, rfl⟩

/-! ## The per-cell lifetime state machine (claim C3)

Abstract state of one cell created by `make_shared`, together with the
population of live handles on it.  Counts are the abstract (unbounded)
contents of the two facet counters; `valueAlive` / `allocated` track whether
`dispose(dispose_object)` (destruct the box, line 156-158) respectively
`dispose(dispose_memory)` (`delete this`, line 160-162) have not yet run. -/
structure CellState where
  strong : Nat
  weak : Nat
  objCount : Nat
  memCount : Nat
  valueAlive : Bool
  allocated : Bool
deriving DecidableEq, Repr

/-- State right after `make_shared`: one strong handle, object facet count 1,
storage facet count 1 (the latent claim), value constructed, cell
allocated. -/
def initCell : CellState := ⟨1, 0, 1, 1, true, true⟩

/-- `decrement()` on the storage facet: its holder is null, so a zero
crossing runs `dispose(dispose_memory)` — deallocation — and stops. -/
def memDec (s : CellState) : CellState :=
  if 1 < s.memCount then { s with memCount := s.memCount - 1 }
  else { s with memCount := 0, allocated := false }

/-- `decrement()` on the object facet: its holder is the storage facet, so a
zero crossing destructs the value (`dispose(dispose_object)`) and then
cascades into `memDec`. -/
def objDec (s : CellState) : CellState :=
  if 1 < s.objCount then { s with objCount := s.objCount - 1 }
  else memDec { s with objCount := 0, valueAlive := false }

/-- The handle operations that touch a cell.  `copyStrong` is the
`shared_ptr` copy constructor, `dropStrong` its destructor, `weakFromStrong`
the `weak_ptr(const shared_ptr&)` constructor, `copyWeak` the `weak_ptr`
copy constructor (its member initializers misname the members but its
counter effect — holder increment — is taken from its body), `dropWeak` the
`weak_ptr` destructor, and `lockWeak` is `weak_ptr::lock`.  Moves and
`swap` transfer handles without counter traffic and do not change this
abstract state. -/
inductive CellOp where
  | copyStrong
  | dropStrong
  | weakFromStrong
  | copyWeak
  | dropWeak
  | lockWeak
deriving DecidableEq, Repr

/-- One operation, guarded by the existence of the live handle it is invoked
on (`none` when no such handle exists). -/
def cellStep (s : CellState) : CellOp → Option CellState
  | CellOp.copyStrong =>
    if 1 ≤ s.strong then
      some { s with strong := s.strong + 1, objCount := s.objCount + 1 }
    else none
  | CellOp.dropStrong =>
    if 1 ≤ s.strong then
      some (objDec { s with strong := s.strong - 1 })
    else none
  | CellOp.weakFromStrong =>
    if 1 ≤ s.strong then
      some { s with weak := s.weak + 1, memCount := s.memCount + 1 }
    else none
  | CellOp.copyWeak =>
    if 1 ≤ s.weak then
      some { s with weak := s.weak + 1, memCount := s.memCount + 1 }
    else none
  | CellOp.dropWeak =>
    if 1 ≤ s.weak then
      some (memDec { s with weak := s.weak - 1 })
    else none
  | CellOp.lockWeak =>
    if 1 ≤ s.weak then
      some (if s.objCount = 0 then s
        else { s with strong := s.strong + 1, objCount := s.objCount + 1 })
    else none

/-- States reachable from a fresh `make_shared` cell by handle operations. -/
inductive ReachableCell : CellState → Prop where
  | init : ReachableCell initCell
  | step {s s2 : CellState} {op : CellOp} :
      ReachableCell s → cellStep s op = some s2 → ReachableCell s2

/-- The inductive invariant tying counts to handle populations. -/
def CellInv (s : CellState) : Prop :=
  s.objCount = s.strong ∧
  s.memCount = s.weak + (if s.valueAlive then 1 else 0) ∧
  (s.valueAlive ↔ s.strong ≠ 0) ∧
  (s.allocated ↔ s.memCount ≠ 0)

theorem cellInv_init : CellInv initCell := by
  refine ⟨rfl, rfl, ?_, ?_⟩ <;> simp [initCell]

theorem cellInv_step {s s2 : CellState} {op : CellOp}
    (hinv : CellInv s) (hstep : cellStep s op = some s2) : CellInv s2 := by
  obtain ⟨st, wk, oc, mc, va, al⟩ := s
  obtain ⟨h1, h2, h3, h4⟩ := hinv
  simp only [CellInv] at h1 h2 h3 h4 ⊢
  cases va
  case false =>
    norm_num at h1 h2 h3 h4
    cases op <;> simp only [cellStep] at hstep
    case copyStrong =>
      rw [if_neg (by omega)] at hstep
      exact absurd hstep (by simp)
    case dropStrong =>
      rw [if_neg (by omega)] at hstep
      exact absurd hstep (by simp)
    case weakFromStrong =>
      rw [if_neg (by omega)] at hstep
      exact absurd hstep (by simp)
    case copyWeak =>
      by_cases hw : 1 ≤ wk
      · rw [if_pos hw] at hstep
        obtain rfl := Option.some_injective _ hstep.symm
        refine ⟨h1, by norm_num <;> omega, by norm_num <;> omega,
          ⟨fun _ => by norm_num <;> omega, fun _ => h4.mpr (by omega)⟩⟩
      · rw [if_neg hw] at hstep; exact absurd hstep (by simp)
    case dropWeak =>
      by_cases hw : 1 ≤ wk
      · rw [if_pos hw] at hstep
        obtain rfl := Option.some_injective _ hstep.symm
        simp only [memDec]
        by_cases hm : 1 < mc
        · rw [if_pos (by simpa using hm)]
          refine ⟨h1, by norm_num <;> omega, by norm_num <;> omega,
            ⟨fun _ => by norm_num <;> omega, fun _ => h4.mpr (by omega)⟩⟩
        · rw [if_neg (by simpa using hm)]
          refine ⟨h1, by norm_num <;> omega, by norm_num <;> omega, by norm_num⟩
      · rw [if_neg hw] at hstep; exact absurd hstep (by simp)
    case lockWeak =>
      by_cases hw : 1 ≤ wk
      · rw [if_pos hw] at hstep
        rw [if_pos (show oc = 0 by omega)] at hstep
        obtain rfl := Option.some_injective _ hstep.symm
        exact ⟨h1, by norm_num <;> omega, by norm_num <;> omega, h4⟩
      · rw [if_neg hw] at hstep; exact absurd hstep (by simp)
  case true =>
    norm_num at h1 h2 h3 h4
    cases op <;> simp only [cellStep] at hstep
    case copyStrong =>
      rw [if_pos (by omega)] at hstep
      obtain rfl := Option.some_injective _ hstep.symm
      refine ⟨by norm_num <;> omega, by norm_num <;> omega, by norm_num <;> omega, h4⟩
    case dropStrong =>
      rw [if_pos (by omega)] at hstep
      obtain rfl := Option.some_injective _ hstep.symm
      simp only [objDec, memDec]
      by_cases ho : 1 < oc
      · rw [if_pos (by simpa using ho)]
        refine ⟨by norm_num <;> omega, by norm_num <;> omega, by norm_num <;> omega, h4⟩
      · rw [if_neg (by simpa using ho)]
        by_cases hm : 1 < mc
        · rw [if_pos (by simpa using hm)]
          refine ⟨by norm_num <;> omega, by norm_num <;> omega, by norm_num <;> omega,
            ⟨fun _ => by norm_num <;> omega, fun _ => h4.mpr (by omega)⟩⟩
        · rw [if_neg (by simpa using hm)]
          refine ⟨by norm_num <;> omega, by norm_num <;> omega, by norm_num <;> omega,
            by norm_num⟩
    case weakFromStrong =>
      rw [if_pos (by omega)] at hstep
      obtain rfl := Option.some_injective _ hstep.symm
      refine ⟨h1, by norm_num <;> omega, by norm_num <;> omega,
        ⟨fun _ => by norm_num <;> omega, fun _ => h4.mpr (by omega)⟩⟩
    case copyWeak =>
      by_cases hw : 1 ≤ wk
      · rw [if_pos hw] at hstep
        obtain rfl := Option.some_injective _ hstep.symm
        refine ⟨h1, by norm_num <;> omega, by norm_num <;> omega,
          ⟨fun _ => by norm_num <;> omega, fun _ => h4.mpr (by omega)⟩⟩
      · rw [if_neg hw] at hstep; exact absurd hstep (by simp)
    case dropWeak =>
      by_cases hw : 1 ≤ wk
      · rw [if_pos hw] at hstep
        obtain rfl := Option.some_injective _ hstep.symm
        simp only [memDec]
        rw [if_pos (by simpa using show 1 < mc by omega)]
        refine ⟨h1, by norm_num <;> omega, by norm_num <;> omega,
          ⟨fun _ => by norm_num <;> omega, fun _ => h4.mpr (by omega)⟩⟩
      · rw [if_neg hw] at hstep; exact absurd hstep (by simp)
    case lockWeak =>
      by_cases hw : 1 ≤ wk
      · rw [if_pos hw] at hstep
        rw [if_neg (show ¬oc = 0 by omega)] at hstep
        obtain rfl := Option.some_injective _ hstep.symm
        refine ⟨by norm_num <;> omega, by norm_num <;> omega, by norm_num <;> omega, h4⟩
      · rw [if_neg hw] at hstep; exact absurd hstep (by simp)

theorem cellInv_reachable {s : CellState} (h : ReachableCell s) : CellInv s := by
  induction h with
  | init => exact cellInv_init
  | step _ hstep ih => exact cellInv_step ih hstep

/-- C3: at every reachable state of a cell, the object-facet count equals the
number of live strong handles; the storage-facet count equals the number of
live weak handles plus the latent claim (1 while the value is alive, released
by the object-facet cascade); the value is alive exactly while strong handles
remain; the cell stays allocated exactly while a strong or weak handle
remains; and the value is never outlived by a deallocated cell — destruction
strictly precedes deallocation. -/
theorem cell_lifetime_invariant (s : CellState) (h : ReachableCell s) :
    s.objCount = s.strong ∧
    s.memCount = s.weak + (if s.valueAlive then 1 else 0) ∧
    (s.valueAlive ↔ s.strong ≠ 0) ∧
    (s.allocated ↔ (s.strong ≠ 0 ∨ s.weak ≠ 0)) ∧
    (s.valueAlive = true → s.allocated = true) := by
  obtain ⟨h1, h2, h3, h4⟩ := cellInv_reachable h
  refine ⟨h1, h2, h3, ?_, ?_⟩
  · rw [h4, h2]
    by_cases hv : s.valueAlive = true
    · rw [if_pos hv]
      exact ⟨fun _ => Or.inl (h3.mp hv), fun _ => by omega⟩
    · rw [if_neg hv]
      have hst : s.strong = 0 := by
        by_contra hne
        exact hv (h3.mpr hne)
      constructor
      · intro hne
        exact Or.inr (by omega)
      · intro hor
        rcases hor with hss | hww
        · exact absurd hss (by omega)
        · omega
  · intro hv
    refine h4.mpr ?_
    rw [h2, if_pos hv]
    omega

/-- Witness for `cell_lifetime_invariant`: the state reached from a fresh
cell by copying the strong handle, making a weak handle, then dropping both
strong handles — value destructed, cell still allocated for the weak
handle. -/
theorem cell_lifetime_invariant_witness :
    (⟨0, 1, 0, 1, false, true⟩ : CellState).objCount =
        (⟨0, 1, 0, 1, false, true⟩ : CellState).strong ∧
    (⟨0, 1, 0, 1, false, true⟩ : CellState).memCount =
        (⟨0, 1, 0, 1, false, true⟩ : CellState).weak +
          (if (⟨0, 1, 0, 1, false, true⟩ : CellState).valueAlive then 1
           else 0) ∧
    ((⟨0, 1, 0, 1, false, true⟩ : CellState).valueAlive ↔
        (⟨0, 1, 0, 1, false, true⟩ : CellState).strong ≠ 0) ∧
    ((⟨0, 1, 0, 1, false, true⟩ : CellState).allocated ↔
        ((⟨0, 1, 0, 1, false, true⟩ : CellState).strong ≠ 0 ∨
          (⟨0, 1, 0, 1, false, true⟩ : CellState).weak ≠ 0)) ∧
    ((⟨0, 1, 0, 1, false, true⟩ : CellState).valueAlive = true →
        (⟨0, 1, 0, 1, false, true⟩ : CellState).allocated = true) := by
  have r1 : ReachableCell ⟨2, 0, 2, 1, true, true⟩ :=
    @ReachableCell.step initCell ⟨2, 0, 2, 1, true, true⟩ CellOp.copyStrong
      ReachableCell.init (by decide)
  have r2 : ReachableCell ⟨2, 1, 2, 2, true, true⟩ :=
    @ReachableCell.step ⟨2, 0, 2, 1, true, true⟩ ⟨2, 1, 2, 2, true, true⟩
      CellOp.weakFromStrong r1 (by decide)
  have r3 : ReachableCell ⟨1, 1, 1, 2, true, true⟩ :=
    @ReachableCell.step ⟨2, 1, 2, 2, true, true⟩ ⟨1, 1, 1, 2, true, true⟩
      CellOp.dropStrong r2 (by decide)
  have r4 : ReachableCell ⟨0, 1, 0, 1, false, true⟩ :=
    @ReachableCell.step ⟨1, 1, 1, 2, true, true⟩ ⟨0, 1, 0, 1, false, true⟩
      CellOp.dropStrong r3 (by decide)
  exact cell_lifetime_invariant _ r4

end Smarter
